import Mathlib

/-!
Shallow embedding of the GitAI diff-analysis engine
(`src/gitai/core/models.py`, `src/gitai/core/git_analyzer.py`,
`src/gitai/templates/context.py`) and proofs about it.

Conventions of the embedding:
* Python `str` is `String`, lists are `List`, `Optional[T]` is `Option T`,
  non-negative `int` counters are `Nat`.
* The untyped metadata dictionaries (`commit_context`, `repository_info`)
  are not modelled: no function under consideration reads them.
* Python exceptions are modelled by `Except PyExc`; the exception class
  hierarchy only matters through the `isinstance` tests modelled below.
* Regular-expression searches of the source are translated pattern by
  pattern into explicit scanners over `List Char`; each translation is
  annotated with the regex it embeds.
-/

/-- Embeds `ChangeType` enum of `core/models.py` (single-character VCS codes). -/
inductive ChangeType where
  | ADDED
  | MODIFIED
  | DELETED
  | RENAMED
  | COPIED
  | UNMERGED
  | UNKNOWN
  | BROKEN
deriving DecidableEq, Repr

/-- Embeds `ChangeType(status_char)`: the enum value for a code character, or
`none` where Python raises `ValueError`. -/
def charToChangeType (c : Char) : Option ChangeType :=
  if c = 'A' then some .ADDED
  else if c = 'M' then some .MODIFIED
  else if c = 'D' then some .DELETED
  else if c = 'R' then some .RENAMED
  else if c = 'C' then some .COPIED
  else if c = 'U' then some .UNMERGED
  else if c = '?' then some .UNKNOWN
  else if c = 'B' then some .BROKEN
  else none

/-- Embeds `FileChange` dataclass of `core/models.py`. -/
structure FileChange where
  path : String
  change_type : ChangeType
  lines_added : Nat
  lines_removed : Nat
  content_preview : String
  old_path : Option String
deriving DecidableEq, Repr

/-- Embeds `DiffAnalysis` dataclass of `core/models.py` (the two untyped context
dictionaries are omitted: nothing modelled here reads them). -/
structure DiffAnalysis where
  files_changed : List FileChange
  total_additions : Nat
  total_deletions : Nat
  change_summary : String
deriving DecidableEq, Repr

/-- Embeds `DiffAnalysis.file_count`. -/
def fileCount (d : DiffAnalysis) : Nat :=
  d.files_changed.length

/-! ### String utilities shared by the embedding -/

/-- Lexicographic (code-point) comparison of char lists: Python `<=` on
strings restricted to the comparisons `sorted` performs. -/
def charListLe : List Char → List Char → Bool
  | [], _ => true
  | _ :: _, [] => false
  | a :: as, b :: bs => if a < b then true else if b < a then false else charListLe as bs

/-- Python `<=` on strings (code-point lexicographic). -/
def strLeB (a b : String) : Bool :=
  charListLe a.toList b.toList

/-- Insert into a list sorted by `strLeB`. -/
def insortStr (s : String) : List String → List String
  | [] => [s]
  | t :: ts => if strLeB s t then s :: t :: ts else t :: insortStr s ts

/-- Python `sorted` on a list of strings (insertion sort; `sorted` is
extensionally any sort by the same order). -/
def sortStrs : List String → List String
  | [] => []
  | s :: ss => insortStr s (sortStrs ss)

/-- Python's `\s` whitespace class (ASCII part); also the characters
`str.strip()` removes. -/
def isPySpace (c : Char) : Bool :=
  c = ' ' || c = '\t' || c = '\n' || c = '\x0d' || c = '\x0b' || c = '\x0c'

/-- Python `s.split(sep)` for a one-character separator (every separator
the source passes to `split` is one character). -/
def splitOnC (sep : Char) : List Char → List (List Char)
  | [] => [[]]
  | c :: rest =>
    match splitOnC sep rest with
    | [] => [[c]]
    | g :: gs => if c = sep then [] :: g :: gs else (c :: g) :: gs

/-- Embeds `s.split(sep)` on `String`. -/
def strSplitC (sep : Char) (s : String) : List String :=
  (splitOnC sep s.toList).map String.mk

/-- Embeds `sep.join(parts)` over char lists. -/
def joinSep (sep : List Char) : List (List Char) → List Char
  | [] => []
  | g :: gs =>
    match gs with
    | [] => g
    | _ :: _ => g ++ sep ++ joinSep sep gs

/-- Python `sep.join(parts)`. -/
def joinStrs (sep : String) (parts : List String) : String :=
  String.mk (joinSep sep.toList (parts.map String.toList))

/-- Python `s.lower()` (ASCII; the source's patterns and paths are ASCII). -/
def strToLower (s : String) : String :=
  String.mk (s.toList.map Char.toLower)

/-- Python `s.strip()`. -/
def trimChars (l : List Char) : List Char :=
  ((l.dropWhile isPySpace).reverse.dropWhile isPySpace).reverse

/-- Embeds `s.strip()` on `String`. -/
def strTrim (s : String) : String :=
  String.mk (trimChars s.toList)

/-- Python `s.startswith(pre)`. -/
def startsWithS (pre s : String) : Bool :=
  List.isPrefixOf pre.toList s.toList

/-- Python `s[:n]` (character truncation). -/
def takeS (n : Nat) (s : String) : String :=
  String.mk (s.toList.take n)

/-- Python `needle in hay` on strings (substring test), over char lists. -/
def isSubstr : List Char → List Char → Bool
  | n, [] => n.isEmpty
  | n, h :: t => List.isPrefixOf n (h :: t) || isSubstr n t

/-- Python `needle in hay` on `String`. -/
def isSubstrS (needle hay : String) : Bool :=
  isSubstr needle.toList hay.toList

/-- Embeds `"/".join(path.split("/")[:-1])`: the parent directory of a path,
`""` for a path at the repository root (`affected_directories`). -/
def dirname (path : String) : String :=
  joinStrs "/" (strSplitC '/' path).dropLast

/-- Python `"." in path`. -/
def hasDot (path : String) : Bool :=
  path.toList.contains '.'

/-- Embeds `path.split(".")[-1].lower()`: the text after the last dot, lowercased
(only ever used on paths that contain a dot). -/
def extLow (path : String) : String :=
  strToLower ((strSplitC '.' path).getLastD "")

/-! ### `DiffAnalysis` derived properties (`core/models.py`) -/

/-- Embeds `DiffAnalysis.affected_directories`: the sorted set of non-empty parent
directories of the changed files. -/
def affectedDirectories (d : DiffAnalysis) : List String :=
  sortStrs ((d.files_changed.map (fun f => dirname f.path)).filter (fun s => s != "")).dedup

/-- Embeds `DiffAnalysis.file_extensions`: the sorted set of lowercased extensions
of the changed files that contain a dot. -/
def fileExtensions (d : DiffAnalysis) : List String :=
  sortStrs ((d.files_changed.filter (fun f => hasDot f.path)).map (fun f => extLow f.path)).dedup

/-- The "primary language" extension list of `get_change_scope`. -/
def primaryExts : List String :=
  ["py", "js", "ts", "java", "cpp", "c"]

/-- The `common_scopes` list of `get_change_scope`. -/
def commonScopes : List String :=
  ["src", "lib", "tests", "docs", "config"]

/-- The tail of `get_change_scope` once both single-directory and
single-primary-extension branches have failed: the first `common_scopes`
name that is a substring of some affected directory, else `"core"` for a
multi-file change and `""` otherwise. -/
def scopeFallback (d : DiffAnalysis) : String :=
  match commonScopes.find? (fun s => (affectedDirectories d).any (fun dir => isSubstrS s dir)) with
  | some s => s
  | none => if 1 < fileCount d then "core" else ""

/-- Embeds `DiffAnalysis.get_change_scope`.  The Python `if len(...) == 1: return
dirs[0] / elif len(...) == 1: if ext in [...]: return ext / for scope in
common_scopes ... / return "core" if ... else ""` cascade; note that the
extension branch falls through to the loop when the unique extension is not
a primary one. -/
def getChangeScope (d : DiffAnalysis) : String :=
  match affectedDirectories d with
  | [p] => p
  | _ =>
    match fileExtensions d with
    | [e] => if e ∈ primaryExts then e else scopeFallback d
    | _ => scopeFallback d

/-- Embeds `DiffAnalysis.is_likely_feature`. -/
def isLikelyFeature (d : DiffAnalysis) : Bool :=
  decide (d.total_deletions * 2 < d.total_additions)
    && decide (1 < fileCount d)
    && d.files_changed.any (fun fc => decide (fc.change_type = ChangeType.ADDED))

/-- Embeds `DiffAnalysis.is_likely_fix`. -/
def isLikelyFix (d : DiffAnalysis) : Bool :=
  decide (fileCount d ≤ 3)
    && !(d.files_changed.any (fun fc => decide (fc.change_type = ChangeType.ADDED)))
    && decide (0 < d.total_additions)
    && decide (0 < d.total_deletions)

/-- Embeds `DiffAnalysis.is_likely_refactor`.  The source compares with the float
`0.3`; the model uses the exact rational 3/10 (`*10 < *3`).  Binary-float
rounding can differ from the exact rational right at the boundary; no claim
below depends on this predicate's value. -/
def isLikelyRefactor (d : DiffAnalysis) : Bool :=
  decide (((d.total_additions : Int) - (d.total_deletions : Int)).natAbs * 10
            < max d.total_additions d.total_deletions * 3)
    && d.files_changed.any (fun fc =>
        decide (fc.change_type = ChangeType.RENAMED) || decide (fc.change_type = ChangeType.COPIED))

/-! ### `GitAnalyzer._generate_change_summary` -/

/-- Embeds `GitAnalyzer._generate_change_summary`: the `by_type` dictionary count
is modelled by counting files of each kind; a kind is "in" the dictionary
exactly when its count is non-zero. -/
def generateChangeSummary (l : List FileChange) : String :=
  if l.isEmpty then "No changes"
  else
    let countOf := fun (t : ChangeType) => (l.filter (fun c => decide (c.change_type = t))).length
    let parts :=
      (if countOf .ADDED ≠ 0 then [toString (countOf .ADDED) ++ " added"] else [])
        ++ (if countOf .MODIFIED ≠ 0 then [toString (countOf .MODIFIED) ++ " modified"] else [])
        ++ (if countOf .DELETED ≠ 0 then [toString (countOf .DELETED) ++ " deleted"] else [])
        ++ (if countOf .RENAMED ≠ 0 then [toString (countOf .RENAMED) ++ " renamed"] else [])
    if l.length = 1 then "1 file " ++ joinStrs ", " parts
    else toString l.length ++ " files (" ++ joinStrs ", " parts ++ ")"

/-! ### Staged-mode extraction (`GitAnalyzer.get_staged_changes`) -/

/-- A GitPython `git.Diff` item as `_parse_diff_item` consumes it: the four
status flags, the two optional paths, and the raw patch text (already
decoded; the `decode` that cannot fail in the model). -/
structure DiffItem where
  new_file : Bool
  deleted_file : Bool
  renamed_file : Bool
  copied_file : Bool
  a_path : Option String
  b_path : Option String
  diff : String
deriving DecidableEq, Repr

/-- Count of `re.findall(r"^\+[^+]", text, re.MULTILINE)` matches
(`_count_diff_lines`), generalised over the marker character `c`.  The
boolean argument records whether the scanner stands at a line start.  Note
`[^+]` also matches a newline, so a line holding just `"+"` counts when a
line follows it. -/
def countLineStart (c : Char) : Bool → List Char → Nat
  | _, [] => 0
  | _, [_] => 0
  | atStart, a :: b :: rest2 =>
    if atStart ∧ a = c then
      if b = c then countLineStart c false (b :: rest2)
      else 1 + countLineStart c (decide (b = '\n')) rest2
    else countLineStart c (decide (a = '\n')) (b :: rest2)

/-- Embeds `GitAnalyzer._count_diff_lines`. -/
def countDiffLines (diff : String) : Nat × Nat :=
  (countLineStart '+' true diff.toList, countLineStart '-' true diff.toList)

/-- The preview scan shared by `_get_diff_item_preview` and
`_get_diff_preview`: skip `@@`/`+++`/`---` header lines, keep the first 5
lines starting with `+` or `-`, truncate each to 100 characters.  The
Python loop that appends while `len(content_lines) < 5` equals filtering
then taking 5. -/
def diffPreviewScan (diffText : String) : String :=
  let lines := strSplitC '\n' diffText
  let content := lines.filter (fun l =>
    !(startsWithS "@@" l || startsWithS "+++" l || startsWithS "---" l)
      && (startsWithS "+" l || startsWithS "-" l))
  joinStrs "\n" ((content.take 5).map (fun l => takeS 100 l))

/-- Python `b_path or a_path` on optionals: `b_path` unless it is `None` or
the empty (falsy) string. -/
def pyOrPath (b a : Option String) : Option String :=
  match b with
  | some s => if s = "" then a else some s
  | none => a

/-- Embeds `GitAnalyzer._parse_diff_item`.  A real diff item always carries at
least one path; the unreachable both-`None` case is rendered as `""`. -/
def parseDiffItem (it : DiffItem) : FileChange :=
  let change_type :=
    if it.new_file then ChangeType.ADDED
    else if it.deleted_file then ChangeType.DELETED
    else if it.renamed_file then ChangeType.RENAMED
    else if it.copied_file then ChangeType.COPIED
    else ChangeType.MODIFIED
  let file_path := pyOrPath it.b_path it.a_path
  let old_path := if it.renamed_file then it.a_path else none
  let counts := countDiffLines it.diff
  { path := file_path.getD ""
    change_type := change_type
    lines_added := counts.1
    lines_removed := counts.2
    content_preview := diffPreviewScan it.diff
    old_path := old_path }

/-- An untracked working-tree file as `get_staged_changes` sees it:
`content = none` models "missing / not a regular file / read raised", which
the source skips with a logged warning. -/
structure UntrackedFile where
  path : String
  content : Option String
deriving DecidableEq, Repr

/-- Embeds `len(text.splitlines())` for newline-separated text (the source reads
files as text; only `\n` line breaks are modelled). -/
def countSplitlines (s : String) : Nat :=
  if s = "" then 0
  else s.toList.count '\n' + (if s.toList.getLast? = some '\n' then 0 else 1)

/-- Embeds `GitAnalyzer._get_file_preview`: first 5 lines, each truncated to 100
characters. -/
def filePreview (content : String) : String :=
  joinStrs "\n" (((strSplitC '\n' content).take 5).map (fun l => takeS 100 l))

/-- The Python exception classes that `get_staged_changes` can raise or
wrap (`utils/exceptions.py`); each carries its message. -/
inductive PyExc where
  | noStagedChangesError (msg : String)
  | gitCommandError (msg : String)
  | gitOperationError (msg : String)
  | gitAnalysisError (msg : String)
deriving DecidableEq, Repr

/-- Embeds `str(e)`: the message of the exception. -/
def PyExc.str : PyExc → String
  | .noStagedChangesError m => m
  | .gitCommandError m => m
  | .gitOperationError m => m
  | .gitAnalysisError m => m

/-- Embeds `isinstance(e, NoStagedChangesError)` (no other class is below it in
the hierarchy of `utils/exceptions.py`). -/
def isNoStagedChangesExc : PyExc → Bool
  | .noStagedChangesError _ => true
  | _ => false

/-- Embeds `isinstance(e, GitCommandError)`. -/
def isGitCommandErrorExc : PyExc → Bool
  | .gitCommandError _ => true
  | _ => false

/-- One step of the `for diff_item in staged_diff` loop of
`get_staged_changes`: parse, append, accumulate both totals. -/
def stagedStep (acc : List FileChange × Nat × Nat) (it : DiffItem) :
    List FileChange × Nat × Nat :=
  let fc := parseDiffItem it
  (acc.1 ++ [fc], acc.2.1 + fc.lines_added, acc.2.2 + fc.lines_removed)

/-- One step of the `for untracked_file in untracked_files` loop: a
readable regular file becomes an `Added` record whose line count is also
added to `total_additions` (deletions untouched); anything else is skipped. -/
def untrackedStep (acc : List FileChange × Nat × Nat) (ut : UntrackedFile) :
    List FileChange × Nat × Nat :=
  match ut.content with
  | none => acc
  | some text =>
    let lines := countSplitlines text
    let fc : FileChange :=
      { path := ut.path, change_type := ChangeType.ADDED, lines_added := lines
        lines_removed := 0, content_preview := filePreview text, old_path := none }
    (acc.1 ++ [fc], acc.2.1 + lines, acc.2.2)

/-- The core of the `try:` block of `get_staged_changes`, once the
effective untracked list is fixed: the emptiness check, the two
accumulation loops (`res` below names the loops' final state) and the
analysis construction. -/
def stagedBodyCore (staged : List DiffItem) (untrackedFiles : List UntrackedFile) :
    Except PyExc DiffAnalysis :=
  if staged.isEmpty && untrackedFiles.isEmpty then
    .error (.noStagedChangesError "No staged changes found")
  else
    .ok { files_changed :=
            (untrackedFiles.foldl untrackedStep (staged.foldl stagedStep ([], 0, 0))).1
          total_additions :=
            (untrackedFiles.foldl untrackedStep (staged.foldl stagedStep ([], 0, 0))).2.1
          total_deletions :=
            (untrackedFiles.foldl untrackedStep (staged.foldl stagedStep ([], 0, 0))).2.2
          change_summary :=
            generateChangeSummary
              (untrackedFiles.foldl untrackedStep (staged.foldl stagedStep ([], 0, 0))).1 }

/-- The body of the `try:` block of `get_staged_changes` (before the
`except` clauses rewrap exceptions).  Inputs: the staged diff, the
repository's untracked files, and the `include_untracked` flag
(`untracked_files` is `[]` unless the flag is set). -/
def getStagedChangesBody (staged : List DiffItem) (untracked : List UntrackedFile)
    (includeUntracked : Bool) : Except PyExc DiffAnalysis :=
  stagedBodyCore staged (if includeUntracked then untracked else [])

/-- The `except GitCommandError` / `except Exception` clauses of
`get_staged_changes`: every exception escaping the `try:` body is rewrapped
— a `GitCommandError` into `GitOperationError`, anything else (including
the `NoStagedChangesError` raised inside the same block) into a plain
`GitAnalysisError`. -/
def wrapStagedExc (r : Except PyExc DiffAnalysis) : Except PyExc DiffAnalysis :=
  match r with
  | .ok a => .ok a
  | .error e =>
    if isGitCommandErrorExc e then
      .error (.gitOperationError ("Git command failed: " ++ e.str))
    else
      .error (.gitAnalysisError ("Failed to analyze staged changes: " ++ e.str))

/-- Embeds `GitAnalyzer.get_staged_changes` as the caller sees it. -/
def getStagedChanges (staged : List DiffItem) (untracked : List UntrackedFile)
    (includeUntracked : Bool) : Except PyExc DiffAnalysis :=
  wrapStagedExc (getStagedChangesBody staged untracked includeUntracked)

/-! ### Branch-range extraction (`GitAnalyzer.get_branch_changes`) -/

/-- The VCS answers `get_branch_changes` consumes: the raw `--numstat`
output for `base...HEAD`, and per path the `--name-status` output
(`statusOf`, `""` for a failed/empty query) and the raw diff text for the
preview (`diffOf`). -/
structure BranchCtx where
  numstat : String
  statusOf : String → String
  diffOf : String → String

/-- Embeds `GitAnalyzer._determine_change_type_from_diff`: first character of the
first tab-field of the name-status output, defaulting to `MODIFIED` when
the output is empty, the field is empty, or the character is not a valid
status code (Python catches the `IndexError`/`ValueError`). -/
def determineChangeType (statusOut : String) : ChangeType :=
  if statusOut = "" then ChangeType.MODIFIED
  else
    match ((strSplitC '\t' statusOut).headD "").toList.head? with
    | none => ChangeType.MODIFIED
    | some c => (charToChangeType c).getD ChangeType.MODIFIED

/-- Embeds `int(s) if s.isdigit() else 0`. -/
def pyIntIfDigit (s : String) : Nat :=
  if !s.toList.isEmpty && s.toList.all Char.isDigit then
    s.toList.foldl (fun acc c => acc * 10 + (c.toNat - '0'.toNat)) 0
  else 0

/-- One step of the numstat-line loop of `get_branch_changes`: blank lines
and lines with fewer than three tab-fields are skipped; `-` in either count
column (binary file) gives 0/0; the change kind comes from a per-path
name-status query. -/
def branchStep (ctx : BranchCtx) (acc : List FileChange × Nat × Nat) (line : String) :
    List FileChange × Nat × Nat :=
  if strTrim line = "" then acc
  else
    match strSplitC '\t' line with
    | additionsStr :: deletionsStr :: filePath :: _ =>
      let counts :=
        if additionsStr = "-" || deletionsStr = "-" then ((0 : Nat), (0 : Nat))
        else (pyIntIfDigit additionsStr, pyIntIfDigit deletionsStr)
      let fc : FileChange :=
        { path := filePath
          change_type := determineChangeType (ctx.statusOf filePath)
          lines_added := counts.1
          lines_removed := counts.2
          content_preview := diffPreviewScan (ctx.diffOf filePath)
          old_path := none }
      (acc.1 ++ [fc], acc.2.1 + counts.1, acc.2.2 + counts.2)
    | _ => acc

/-- The analysis `get_branch_changes` builds from the parsed numstat
lines (`res` in the source is the loops' final state). -/
def branchAnalysis (ctx : BranchCtx) (lines : List String) : DiffAnalysis :=
  { files_changed := (lines.foldl (branchStep ctx) ([], 0, 0)).1
    total_additions := (lines.foldl (branchStep ctx) ([], 0, 0)).2.1
    total_deletions := (lines.foldl (branchStep ctx) ([], 0, 0)).2.2
    change_summary := generateChangeSummary (lines.foldl (branchStep ctx) ([], 0, 0)).1 }

/-- Embeds `GitAnalyzer.get_branch_changes`: empty (stripped) diff returns the
"No changes found" analysis as a result; otherwise each numstat line is
parsed and the totals are accumulated alongside the records. -/
def getBranchChanges (ctx : BranchCtx) : DiffAnalysis :=
  if strTrim ctx.numstat = "" then
    { files_changed := [], total_additions := 0, total_deletions := 0
      change_summary := "No changes found" }
  else branchAnalysis ctx (strSplitC '\n' (strTrim ctx.numstat))

/-! ### File classification (`templates/context.py`, `ContextBuilder`) -/

/-- Case-insensitive matching (`re.IGNORECASE`) is modelled by lowering the
path once; all the source's patterns are ASCII. -/
def lowerChars (path : String) : List Char :=
  path.toList.map Char.toLower

/-- Python `s.endswith(suf)` over char lists. -/
def endsWithL (suf l : List Char) : Bool :=
  List.isSuffixOf suf l

/-- Embeds `ContextBuilder._is_test_file`: `re.search` of each `test_patterns`
entry, translated regex by regex (paths are assumed newline-free, so `.*`
is "any characters"):
* `test_.*\.py$`   — ends with `.py` and `test_` occurs ending at or
  before the final `.py`;
* `.*_test\.py$`   — ends with `_test.py`;
* `.*\.test\.js$`  — ends with `.test.js`;
* `.*\.spec\.js$`  — ends with `.spec.js`;
* `tests?/.*`      — contains `test/` or `tests/`;
* `spec/.*`        — contains `spec/`;
* `__tests__/.*`   — contains `__tests__/`. -/
def isTestFile (path : String) : Bool :=
  let s := lowerChars path
  (endsWithL ".py".toList s && isSubstr "test_".toList (s.take (s.length - 3)))
    || endsWithL "_test.py".toList s
    || endsWithL ".test.js".toList s
    || endsWithL ".spec.js".toList s
    || isSubstr "test/".toList s || isSubstr "tests/".toList s
    || isSubstr "spec/".toList s
    || isSubstr "__tests__/".toList s

/-- Embeds `ContextBuilder._is_config_file`, pattern by pattern:
`.*\.config\.(js|ts|json|yaml|yml)$`, `.*\.env.*`, `Dockerfile.*`,
`.*\.ini$`, `.*\.cfg$`, `pyproject\.toml$`, `package\.json$`,
`requirements.*\.txt$`, `Gemfile$`, `pom\.xml$` (all unanchored at the
start, searched case-insensitively). -/
def isConfigFile (path : String) : Bool :=
  let s := lowerChars path
  endsWithL ".config.js".toList s || endsWithL ".config.ts".toList s
    || endsWithL ".config.json".toList s || endsWithL ".config.yaml".toList s
    || endsWithL ".config.yml".toList s
    || isSubstr ".env".toList s
    || isSubstr "dockerfile".toList s
    || endsWithL ".ini".toList s
    || endsWithL ".cfg".toList s
    || endsWithL "pyproject.toml".toList s
    || endsWithL "package.json".toList s
    || (endsWithL ".txt".toList s && isSubstr "requirements".toList (s.take (s.length - 4)))
    || endsWithL "gemfile".toList s
    || endsWithL "pom.xml".toList s

/-- Embeds `ContextBuilder._is_docs_file`: `.*\.md$`, `.*\.rst$`, `.*\.txt$`,
`docs?/.*`, `README.*`, `CHANGELOG.*`, `LICENSE.*`. -/
def isDocsFile (path : String) : Bool :=
  let s := lowerChars path
  endsWithL ".md".toList s || endsWithL ".rst".toList s || endsWithL ".txt".toList s
    || isSubstr "doc/".toList s || isSubstr "docs/".toList s
    || isSubstr "readme".toList s
    || isSubstr "changelog".toList s
    || isSubstr "license".toList s

/-- The `language_map` lookup of `ContextBuilder._detect_language`. -/
def langOf (ext : String) : Option String :=
  if ext = "py" then some "python"
  else if ext = "js" then some "javascript"
  else if ext = "ts" then some "typescript"
  else if ext = "java" then some "java"
  else if ext = "cpp" then some "cpp"
  else if ext = "c" then some "c"
  else if ext = "h" then some "c"
  else if ext = "rs" then some "rust"
  else if ext = "go" then some "go"
  else if ext = "php" then some "php"
  else if ext = "rb" then some "ruby"
  else if ext = "swift" then some "swift"
  else if ext = "kt" then some "kotlin"
  else if ext = "cs" then some "csharp"
  else if ext = "html" then some "html"
  else if ext = "css" then some "css"
  else if ext = "scss" then some "scss"
  else if ext = "json" then some "json"
  else if ext = "yaml" then some "yaml"
  else if ext = "yml" then some "yaml"
  else if ext = "xml" then some "xml"
  else if ext = "sql" then some "sql"
  else if ext = "sh" then some "shell"
  else none

/-- Embeds `ContextBuilder._detect_language`. -/
def detectLanguage (path : String) : Option String :=
  if !hasDot path then none else langOf (extLow path)

/-- Embeds `EnhancedFileChange` dataclass of `templates/context.py`. -/
structure EnhancedFileChange where
  path : String
  change_type : String
  lines_added : Nat
  lines_deleted : Nat
  description : Option String
  is_test : Bool
  is_config : Bool
  is_docs : Bool
  language : Option String
deriving DecidableEq, Repr

/-- The `change_type_map.get(..., "changed")` rendering of
`_enhance_file_change`: the five mapped kinds, every other kind falls back
to `"changed"`. -/
def changeTypeLabel : ChangeType → String
  | .ADDED => "added"
  | .MODIFIED => "modified"
  | .DELETED => "deleted"
  | .RENAMED => "renamed"
  | .COPIED => "copied"
  | _ => "changed"

/-- Embeds `ContextBuilder._generate_file_description`. -/
def generateFileDescription (fc : FileChange) (t c dc : Bool) : Option String :=
  if t then some "Test file"
  else if c then some "Configuration file"
  else if dc then some "Documentation"
  else if fc.change_type = ChangeType.ADDED then some "New file"
  else if fc.lines_removed * 3 < fc.lines_added then some "Major additions"
  else if fc.lines_added * 3 < fc.lines_removed then some "Major deletions"
  else some "Updated"

/-- Embeds `ContextBuilder._enhance_file_change`. -/
def enhanceFileChange (fc : FileChange) : EnhancedFileChange :=
  let t := isTestFile fc.path
  let c := isConfigFile fc.path
  let dc := isDocsFile fc.path
  { path := fc.path
    change_type := changeTypeLabel fc.change_type
    lines_added := fc.lines_added
    lines_deleted := fc.lines_removed
    description := generateFileDescription fc t c dc
    is_test := t
    is_config := c
    is_docs := dc
    language := detectLanguage fc.path }

/-- Embeds `ContextBuilder._is_docs_change`: docs files are more than 70% of the
list.  The source multiplies by the float `0.7`; the model uses the exact
rational 7/10 (boundary float rounding unexercised by the claims). -/
def isDocsChange (files : List EnhancedFileChange) : Bool :=
  if files.isEmpty then false
  else decide (files.length * 7 < (files.filter (fun f => f.is_docs)).length * 10)

/-- Embeds `ContextBuilder._is_test_change` (same 70% threshold). -/
def isTestChange (files : List EnhancedFileChange) : Bool :=
  if files.isEmpty then false
  else decide (files.length * 7 < (files.filter (fun f => f.is_test)).length * 10)

/-! ### Issue extraction (`ContextBuilder._extract_related_issues`)

`re.findall` over the four patterns `#(\d+)`, `closes?\s+#(\d+)`,
`fixes?\s+#(\d+)`, `resolves?\s+#(\d+)` (case-insensitive), each scanned
left-to-right without overlap. -/

/-- Scanner for `re.findall(r"#(\d+)", text)`: `acc?` is `some acc` while a
`#`-introduced digit run is being read (`acc` reversed); a maximal
non-empty run is emitted when it ends. -/
def goHash : Option (List Char) → List Char → List (List Char)
  | some acc, [] => if acc.isEmpty then [] else [acc.reverse]
  | none, [] => []
  | some acc, c :: rest =>
    if c.isDigit then goHash (some (c :: acc)) rest
    else if acc.isEmpty then goHash (if c = '#' then some [] else none) rest
    else acc.reverse :: goHash (if c = '#' then some [] else none) rest
  | none, c :: rest => goHash (if c = '#' then some [] else none) rest

/-- All matches of `#(\d+)` in order. -/
def findallHash (s : List Char) : List (List Char) :=
  goHash none s

/-- Case-insensitive literal-prefix match: the remainder of `s` after `kw`,
if `kw` is a prefix of `s` up to `Char.toLower`. -/
def stripPrefixCI : List Char → List Char → Option (List Char)
  | [], s => some s
  | _ :: _, [] => none
  | k :: ks, c :: cs => if c.toLower = k then stripPrefixCI ks cs else none

/-- The regex's optional `s?` (case-insensitive): consume a leading `s`
when present.  No backtracking is needed: `s` is not whitespace, so a
consumed `s` that leaves the following `\s+` unmatched could not match
without it either. -/
def afterOptS (r1 : List Char) : List Char :=
  match r1 with
  | c :: t => if c.toLower = 's' then t else c :: t
  | [] => []

/-- The `\s+#(\d+)` tail of the keyword patterns: at least one whitespace
character, then `#`, then a maximal non-empty digit run (the capture);
returns the capture and the text after the whole match. -/
def matchHashDigits (r2 : List Char) : Option (List Char × List Char) :=
  if (r2.takeWhile isPySpace).isEmpty then none
  else
    match r2.dropWhile isPySpace with
    | '#' :: t2 =>
      if (t2.takeWhile Char.isDigit).isEmpty then none
      else some (t2.takeWhile Char.isDigit, t2.dropWhile Char.isDigit)
    | _ => none

/-- One attempted match of `<kw>s?\s+#(\d+)` at the head of `s`:
the literal keyword (case-insensitive), the optional `s`, then the
whitespace-and-number tail. -/
def matchKwAt (kw : List Char) (s : List Char) : Option (List Char × List Char) :=
  match stripPrefixCI kw s with
  | none => none
  | some r1 => matchHashDigits (afterOptS r1)

/-- Fuel-driven scan for `re.findall(r"<kw>s?\s+#(\d+)", text, re.I)`:
try a match at each position; on success continue after the whole match.
`matchKwAt` always consumes at least one character
(`matchKwAt_length_lt` below), so fuel `s.length` never runs out. -/
def findallKwAux (kw : List Char) : Nat → List Char → List (List Char)
  | 0, _ => []
  | _ + 1, [] => []
  | n + 1, c :: rest =>
    match matchKwAt kw (c :: rest) with
    | some (ds, after) => ds :: findallKwAux kw n after
    | none => findallKwAux kw n rest

/-- All matches of `<kw>s?\s+#(\d+)`, in order. -/
def findallKw (kw : List Char) (s : List Char) : List (List Char) :=
  findallKwAux kw s.length s

/-- The concatenated captures of the four patterns of
`_extract_related_issues`: `#(\d+)`, `closes?\s+#(\d+)`,
`fixes?\s+#(\d+)` (note: the regex is `fixe` plus optional `s`, so bare
`fix` is matched only by the first pattern), `resolves?\s+#(\d+)`. -/
def allIssueMatches (cs : List Char) : List (List Char) :=
  findallHash cs
    ++ findallKw "close".toList cs
    ++ findallKw "fixe".toList cs
    ++ findallKw "resolve".toList cs

/-- Embeds `ContextBuilder._extract_related_issues`: empty text short-circuits;
otherwise the union of the four patterns' captures, each rendered as
`#<digits>`, deduplicated (a Python `set`) and sorted. -/
def extractRelatedIssues (text : String) : List String :=
  if text = "" then []
  else sortStrs ((allIssueMatches text.toList).map (fun ds => String.mk ('#' :: ds))).dedup

/-! ### Enrichment (`ContextBuilder._enhance_diff_analysis`) -/

/-- Embeds `EnhancedDiffAnalysis` dataclass (fields the enricher fills; `body`,
`rationale`, `breaking_change` stay `None` and are omitted). -/
structure EnhancedDiffAnalysis where
  summary : String
  scope : String
  is_feature : Bool
  is_fix : Bool
  is_refactor : Bool
  is_docs : Bool
  is_test : Bool
  affected_files : List EnhancedFileChange
  added_files : List EnhancedFileChange
  modified_files : List EnhancedFileChange
  deleted_files : List EnhancedFileChange
  test_files : List EnhancedFileChange
  lines_added : Nat
  lines_deleted : Nat
  related_issues : List String
deriving DecidableEq, Repr

/-- Embeds `ContextBuilder._generate_change_summary` (the template-layer one):
keep a non-blank raw summary, else classify. -/
def ctxChangeSummary (d : DiffAnalysis) (efs : List EnhancedFileChange) : String :=
  if d.change_summary ≠ "" ∧ strTrim d.change_summary ≠ "" then d.change_summary
  else if isDocsChange efs then "Update documentation"
  else if isTestChange efs then "Update tests"
  else if isLikelyFeature d then "Add new feature"
  else if isLikelyFix d then "Fix bug"
  else if isLikelyRefactor d then "Refactor code"
  else "Update code"

/-- Embeds `ContextBuilder._enhance_diff_analysis`.  The source's single loop that
appends each enhanced record to `enhanced_files` and, by its label, to one
of `added_files`/`modified_files`/`deleted_files` and (by `is_test`) to
`test_files` equals a map followed by filters. -/
def enhanceDiffAnalysis (d : DiffAnalysis) : EnhancedDiffAnalysis :=
  let efs := d.files_changed.map enhanceFileChange
  { summary := ctxChangeSummary d efs
    scope := getChangeScope d
    is_feature := isLikelyFeature d
    is_fix := isLikelyFix d
    is_refactor := isLikelyRefactor d
    is_docs := isDocsChange efs
    is_test := isTestChange efs
    affected_files := efs
    added_files := efs.filter (fun e => e.change_type == "added")
    modified_files := efs.filter (fun e => e.change_type == "modified")
    deleted_files := efs.filter (fun e => e.change_type == "deleted")
    test_files := efs.filter (fun e => e.is_test)
    lines_added := d.total_additions
    lines_deleted := d.total_deletions
    related_issues := extractRelatedIssues d.change_summary }

/-! ### Sum notation for the invariants, and concrete inputs used by the
witnesses and counterexamples below -/

/-- Embeds `Σ linesAdded` over a file list. -/
def sumAdds (l : List FileChange) : Nat :=
  (l.map (fun f => f.lines_added)).sum

/-- Embeds `Σ linesRemoved` over a file list. -/
def sumDels (l : List FileChange) : Nat :=
  (l.map (fun f => f.lines_removed)).sum

/-- A staged diff holding one new file (`+x` patch). -/
def cStagedOne : List DiffItem :=
  [⟨true, false, false, false, none, some "n.py", "+x\n"⟩]

/-- One readable untracked file of two lines. -/
def cUntrackedOne : List UntrackedFile :=
  [⟨"u.txt", some "a\nb"⟩]

/-- The analysis `getStagedChanges cStagedOne cUntrackedOne true` returns. -/
def cStagedResult : DiffAnalysis :=
  { files_changed :=
      [⟨"n.py", ChangeType.ADDED, 1, 0, "+x", none⟩,
       ⟨"u.txt", ChangeType.ADDED, 2, 0, "a\nb", none⟩]
    total_additions := 3
    total_deletions := 0
    change_summary := "2 files (2 added)" }

/-- A single renamed file (used against the partition claim). -/
def cRenamedFile : FileChange :=
  ⟨"a.py", ChangeType.RENAMED, 1, 2, "", some "old.py"⟩

/-- An analysis holding only `cRenamedFile`. -/
def cRenamedAnalysis : DiffAnalysis :=
  ⟨[cRenamedFile], 1, 2, "1 file 1 renamed"⟩

/-- A single added test file. -/
def cAddedTestFile : FileChange :=
  ⟨"tests/test_a.py", ChangeType.ADDED, 5, 0, "", none⟩

/-- An analysis holding only `cAddedTestFile`. -/
def cAddedTestAnalysis : DiffAnalysis :=
  ⟨[cAddedTestFile], 5, 0, "1 file 1 added"⟩

/-- One file of each of the three partitioned kinds. -/
def cThreeKinds : List FileChange :=
  [⟨"a.py", ChangeType.ADDED, 3, 0, "", none⟩,
   ⟨"b.py", ChangeType.MODIFIED, 1, 2, "", none⟩,
   ⟨"c.py", ChangeType.DELETED, 0, 4, "", none⟩]

/-- A root-level file plus a file under `src/` (both `.py`): the changed
files do not share a parent directory, yet `affected_directories` is the
singleton `["src"]`. -/
def cRootAndSrc : DiffAnalysis :=
  ⟨[⟨"root.py", ChangeType.MODIFIED, 1, 0, "", none⟩,
    ⟨"src/x.py", ChangeType.MODIFIED, 1, 0, "", none⟩], 2, 0, ""⟩

/-- Two files directly under `src/payments/` (the spec's scope example). -/
def cPayments : DiffAnalysis :=
  ⟨[⟨"src/payments/a.py", ChangeType.MODIFIED, 1, 0, "", none⟩,
    ⟨"src/payments/b.py", ChangeType.ADDED, 2, 0, "", none⟩], 3, 0, "x"⟩

/-- Two files, one added, 120 additions and 10 deletions in total (the
feature-heuristic example). -/
def cFeatureExample : DiffAnalysis :=
  ⟨[⟨"a", ChangeType.ADDED, 100, 0, "", none⟩,
    ⟨"b", ChangeType.MODIFIED, 20, 10, "", none⟩], 120, 10, "s"⟩

/-- A single copied file. -/
def cCopiedOnly : List FileChange :=
  [⟨"c.py", ChangeType.COPIED, 1, 0, "", none⟩]

/-- A single unmerged file and the analysis holding it. -/
def cUnmergedFile : FileChange :=
  ⟨"x.py", ChangeType.UNMERGED, 1, 1, "", none⟩

/-- Analysis holding only `cUnmergedFile`. -/
def cUnmergedAnalysis : DiffAnalysis :=
  ⟨[cUnmergedFile], 1, 1, "1 file "⟩

/-! ### Helper lemmas: the sort used by `sorted(...)` -/

theorem charListLe_total (a b : List Char) : charListLe a b = true ∨ charListLe b a = true := by
  induction a generalizing b with
  | nil => left; rfl
  | cons x xs ih =>
    cases b with
    | nil => right; rfl
    | cons y ys =>
      rcases lt_trichotomy x y with h | h | h
      · left; simp [charListLe, h]
      · subst h
        rcases ih ys with h' | h'
        · left; simp [charListLe, lt_irrefl, h']
        · right; simp [charListLe, lt_irrefl, h']
      · right; simp [charListLe, h, lt_asymm h]

theorem charListLe_trans (a b c : List Char) (h1 : charListLe a b = true)
    (h2 : charListLe b c = true) : charListLe a c = true := by
  induction a generalizing b c with
  | nil => rfl
  | cons x xs ih =>
    cases b with
    | nil => simp [charListLe] at h1
    | cons y ys =>
      cases c with
      | nil => simp [charListLe] at h2
      | cons z zs =>
        rcases lt_trichotomy x y with hxy | hxy | hxy
        · rcases lt_trichotomy y z with hyz | hyz | hyz
          · simp [charListLe, lt_trans hxy hyz]
          · subst hyz; simp [charListLe, hxy]
          · simp [charListLe, hyz, lt_asymm hyz] at h2
        · subst hxy
          rcases lt_trichotomy x z with hxz | hxz | hxz
          · simp [charListLe, hxz]
          · subst hxz
            simp [charListLe, lt_irrefl] at h1 h2 ⊢
            exact ih ys zs h1 h2
          · simp [charListLe, hxz, lt_asymm hxz] at h2
        · simp [charListLe, hxy, lt_asymm hxy] at h1

theorem strLeB_total (a b : String) : strLeB a b = true ∨ strLeB b a = true :=
  charListLe_total a.toList b.toList

theorem strLeB_trans {a b c : String} (h1 : strLeB a b = true) (h2 : strLeB b c = true) :
    strLeB a c = true :=
  charListLe_trans a.toList b.toList c.toList h1 h2

theorem insortStr_perm (s : String) (l : List String) : (insortStr s l).Perm (s :: l) := by
  induction l with
  | nil => exact List.Perm.refl _
  | cons t ts ih =>
    by_cases h : strLeB s t = true
    · simp [insortStr, h]
    · simp only [insortStr, h, if_false]
      exact (ih.cons t).trans (List.Perm.swap s t ts)

theorem sortStrs_perm (l : List String) : (sortStrs l).Perm l := by
  induction l with
  | nil => exact List.Perm.refl _
  | cons s ss ih => exact (insortStr_perm s (sortStrs ss)).trans (ih.cons s)

theorem mem_sortStrs {a : String} {l : List String} : a ∈ sortStrs l ↔ a ∈ l :=
  (sortStrs_perm l).mem_iff

theorem insortStr_pairwise {s : String} {l : List String}
    (h : l.Pairwise (fun a b => strLeB a b = true)) :
    (insortStr s l).Pairwise (fun a b => strLeB a b = true) := by
  induction l with
  | nil => simp [insortStr]
  | cons t ts ih =>
    rcases List.pairwise_cons.mp h with ⟨ht, hts⟩
    by_cases hle : strLeB s t = true
    · simp only [insortStr, hle, if_true]
      refine List.pairwise_cons.mpr ⟨?_, h⟩
      intro x hx
      rcases List.mem_cons.mp hx with rfl | hx
      · exact hle
      · exact strLeB_trans hle (ht x hx)
    · simp only [insortStr, hle, if_false]
      refine List.pairwise_cons.mpr ⟨?_, ih hts⟩
      intro x hx
      rcases List.mem_cons.mp ((insortStr_perm s ts).mem_iff.mp hx) with rfl | hx
      · rcases strLeB_total x t with h' | h'
        · exact absurd h' hle
        · exact h'
      · exact ht x hx

theorem sortStrs_pairwise (l : List String) :
    (sortStrs l).Pairwise (fun a b => strLeB a b = true) := by
  induction l with
  | nil => simp [sortStrs]
  | cons s ss ih => exact insortStr_pairwise ih

theorem sortStrs_nodup {l : List String} (h : l.Nodup) : (sortStrs l).Nodup :=
  ((sortStrs_perm l).nodup_iff).mpr h

theorem sortStrs_eq_singleton_iff {l : List String} {a : String} :
    sortStrs l = [a] ↔ l = [a] := by
  constructor
  · intro h
    exact List.perm_singleton.mp ((sortStrs_perm l).symm.trans (h ▸ List.Perm.refl _))
  · rintro rfl
    rfl

theorem dedup_eq_singleton_iff {α : Type} [DecidableEq α] {l : List α} {a : α} :
    l.dedup = [a] ↔ a ∈ l ∧ ∀ b ∈ l, b = a := by
  induction l with
  | nil => simp
  | cons c t ih =>
    by_cases hc : c ∈ t
    · rw [List.dedup_cons_of_mem hc, ih]
      constructor
      · rintro ⟨ha, hall⟩
        refine ⟨List.mem_cons_of_mem c ha, ?_⟩
        intro b hb
        rcases List.mem_cons.mp hb with rfl | hb
        · exact hall b hc
        · exact hall b hb
      · rintro ⟨ha, hall⟩
        have hca : c = a := hall c (List.mem_cons_self c t)
        refine ⟨?_, fun b hb => hall b (List.mem_cons_of_mem c hb)⟩
        rcases List.mem_cons.mp ha with rfl | h
        · exact hca ▸ hc
        · exact h
    · rw [List.dedup_cons_of_not_mem hc]
      constructor
      · intro h
        rcases List.cons.injEq _ _ _ _ ▸ h with ⟨rfl, hd⟩
        have ht : t = [] := (List.dedup_eq_nil t).mp hd
        subst ht
        exact ⟨List.mem_cons_self _ _, by intro b hb; simpa using hb⟩
      · rintro ⟨ha, hall⟩
        have hca : c = a := hall c (List.mem_cons_self c t)
        subst hca
        have ht : t = [] := by
          cases t with
          | nil => rfl
          | cons x xs =>
            exact absurd (hall x (List.mem_cons_of_mem c (List.mem_cons_self x xs)) ▸
              List.mem_cons_self x xs) hc
        subst ht
        rfl

/-! ### Helper lemmas: the accumulation loops keep totals equal to sums -/

theorem sumAdds_append (l : List FileChange) (fc : FileChange) :
    sumAdds (l ++ [fc]) = sumAdds l + fc.lines_added := by
  simp [sumAdds]

theorem sumDels_append (l : List FileChange) (fc : FileChange) :
    sumDels (l ++ [fc]) = sumDels l + fc.lines_removed := by
  simp [sumDels]

theorem stagedStep_inv {acc : List FileChange × Nat × Nat} (it : DiffItem)
    (h1 : acc.2.1 = sumAdds acc.1) (h2 : acc.2.2 = sumDels acc.1) :
    (stagedStep acc it).2.1 = sumAdds (stagedStep acc it).1 ∧
      (stagedStep acc it).2.2 = sumDels (stagedStep acc it).1 := by
  simp [stagedStep, sumAdds_append, sumDels_append, h1, h2]

theorem untrackedStep_inv {acc : List FileChange × Nat × Nat} (ut : UntrackedFile)
    (h1 : acc.2.1 = sumAdds acc.1) (h2 : acc.2.2 = sumDels acc.1) :
    (untrackedStep acc ut).2.1 = sumAdds (untrackedStep acc ut).1 ∧
      (untrackedStep acc ut).2.2 = sumDels (untrackedStep acc ut).1 := by
  cases hc : ut.content <;>
    simp [untrackedStep, hc, sumAdds_append, sumDels_append, h1, h2]

theorem branchStep_inv {ctx : BranchCtx} {acc : List FileChange × Nat × Nat} (line : String)
    (h1 : acc.2.1 = sumAdds acc.1) (h2 : acc.2.2 = sumDels acc.1) :
    (branchStep ctx acc line).2.1 = sumAdds (branchStep ctx acc line).1 ∧
      (branchStep ctx acc line).2.2 = sumDels (branchStep ctx acc line).1 := by
  unfold branchStep
  split
  · exact ⟨h1, h2⟩
  · split
    · simp [sumAdds_append, sumDels_append, h1, h2]
    · exact ⟨h1, h2⟩

theorem stagedFold_inv (l : List DiffItem) (acc : List FileChange × Nat × Nat)
    (h1 : acc.2.1 = sumAdds acc.1) (h2 : acc.2.2 = sumDels acc.1) :
    (l.foldl stagedStep acc).2.1 = sumAdds (l.foldl stagedStep acc).1 ∧
      (l.foldl stagedStep acc).2.2 = sumDels (l.foldl stagedStep acc).1 := by
  induction l generalizing acc with
  | nil => exact ⟨h1, h2⟩
  | cons it its ih =>
    exact ih _ (stagedStep_inv it h1 h2).1 (stagedStep_inv it h1 h2).2

theorem untrackedFold_inv (l : List UntrackedFile) (acc : List FileChange × Nat × Nat)
    (h1 : acc.2.1 = sumAdds acc.1) (h2 : acc.2.2 = sumDels acc.1) :
    (l.foldl untrackedStep acc).2.1 = sumAdds (l.foldl untrackedStep acc).1 ∧
      (l.foldl untrackedStep acc).2.2 = sumDels (l.foldl untrackedStep acc).1 := by
  induction l generalizing acc with
  | nil => exact ⟨h1, h2⟩
  | cons ut uts ih =>
    exact ih _ (untrackedStep_inv ut h1 h2).1 (untrackedStep_inv ut h1 h2).2

theorem branchFold_inv (ctx : BranchCtx) (l : List String) (acc : List FileChange × Nat × Nat)
    (h1 : acc.2.1 = sumAdds acc.1) (h2 : acc.2.2 = sumDels acc.1) :
    (l.foldl (branchStep ctx) acc).2.1 = sumAdds (l.foldl (branchStep ctx) acc).1 ∧
      (l.foldl (branchStep ctx) acc).2.2 = sumDels (l.foldl (branchStep ctx) acc).1 := by
  induction l generalizing acc with
  | nil => exact ⟨h1, h2⟩
  | cons line ls ih =>
    exact ih _ (branchStep_inv line h1 h2).1 (branchStep_inv line h1 h2).2

theorem stagedBodyCore_sums (staged : List DiffItem) (ut : List UntrackedFile)
    (a : DiffAnalysis) (h : stagedBodyCore staged ut = Except.ok a) :
    a.total_additions = sumAdds a.files_changed ∧ a.total_deletions = sumDels a.files_changed := by
  unfold stagedBodyCore at h
  by_cases hc : (staged.isEmpty && ut.isEmpty) = true
  · rw [if_pos hc] at h
    exact Except.noConfusion h
  · rw [if_neg hc] at h
    have hst := stagedFold_inv staged ([], 0, 0) rfl rfl
    have hres := untrackedFold_inv ut _ hst.1 hst.2
    rw [← Except.ok.inj h]
    exact ⟨hres.1, hres.2⟩

/-! ### The claims -/

/-- Claim C1 (code evaluated at the divergence): a staged diff item whose
`copied_file` flag is set parses to a `COPIED` record with `old_path =
none` (the source fills `old_path` only for `renamed_file`), while a
renamed staged item does get its `old_path`; and a branch-mode record is
built without `old_path` even when the name-status query reports a rename.
The claimed invariant "`old_path` is set iff the kind is Renamed or
Copied" therefore fails on Copied records and in branch mode. -/
theorem c1_oldPath_copied_eval :
    (parseDiffItem ⟨false, false, false, true, some "old.py", some "new.py", ""⟩).change_type
        = ChangeType.COPIED
      ∧ (parseDiffItem ⟨false, false, false, true, some "old.py", some "new.py", ""⟩).old_path
        = none
      ∧ (parseDiffItem ⟨false, false, true, false, some "old.py", some "new.py", ""⟩).old_path
        = some "old.py"
      ∧ (getBranchChanges ⟨"1\t0\tnew.py", fun _ => "R100\told.py\tnew.py", fun _ => ""⟩).files_changed
        = [⟨"new.py", ChangeType.RENAMED, 1, 0, "", none⟩] := by
  decide

/-- Claim C2 (code evaluated at the divergence): with an empty staged set
and no untracked files, the `NoStagedChangesError` raised inside the `try:`
block is caught by the blanket `except Exception` clause and rewrapped, so
the caller receives a plain `GitAnalysisError`, which is not of the
`NoStagedChangesError` kind. -/
theorem c2_noStagedChanges_wrapped_eval :
    getStagedChanges [] [] false
        = Except.error
            (PyExc.gitAnalysisError "Failed to analyze staged changes: No staged changes found")
      ∧ getStagedChanges [] [] true
        = Except.error
            (PyExc.gitAnalysisError "Failed to analyze staged changes: No staged changes found")
      ∧ isNoStagedChangesExc
            (PyExc.gitAnalysisError "Failed to analyze staged changes: No staged changes found")
        = false :=
  ⟨rfl, rfl, rfl⟩

/-- Claim C3: for every analysis either mode returns, `total_additions` is
the sum of `lines_added` and `total_deletions` the sum of `lines_removed`
over `files_changed` — including the untracked records staged mode appends. -/
theorem c3_totals_sum_invariant :
    (∀ (staged : List DiffItem) (untracked : List UntrackedFile) (b : Bool) (a : DiffAnalysis),
        getStagedChanges staged untracked b = Except.ok a →
        a.total_additions = sumAdds a.files_changed ∧ a.total_deletions = sumDels a.files_changed)
      ∧ (∀ ctx : BranchCtx,
        (getBranchChanges ctx).total_additions = sumAdds (getBranchChanges ctx).files_changed ∧
          (getBranchChanges ctx).total_deletions = sumDels (getBranchChanges ctx).files_changed) := by
  constructor
  · intro staged untracked b a h
    apply stagedBodyCore_sums staged (if b then untracked else []) a
    unfold getStagedChanges at h
    cases hbody : getStagedChangesBody staged untracked b with
    | error e =>
      rw [hbody] at h
      simp only [wrapStagedExc] at h
      split at h <;> exact Except.noConfusion h
    | ok x =>
      rw [hbody] at h
      simp only [wrapStagedExc] at h
      unfold getStagedChangesBody at hbody
      rw [Except.ok.inj h] at hbody
      exact hbody
  · intro ctx
    unfold getBranchChanges
    by_cases hd : strTrim ctx.numstat = ""
    · rw [if_pos hd]
      exact ⟨rfl, rfl⟩
    · rw [if_neg hd]
      have hres := branchFold_inv ctx (strSplitC '\n' (strTrim ctx.numstat)) ([], 0, 0) rfl rfl
      exact ⟨hres.1, hres.2⟩

/-- Witness for C3: the one-new-file staged diff plus one untracked file
evaluates to `cStagedResult`, whose totals are the per-file sums. -/
theorem c3_totals_sum_invariant_witness :
    cStagedResult.total_additions = sumAdds cStagedResult.files_changed ∧
      cStagedResult.total_deletions = sumDels cStagedResult.files_changed :=
  c3_totals_sum_invariant.1 cStagedOne cUntrackedOne true cStagedResult rfl

/-- Claim C6: on a non-empty change set the summary counts files by kind,
renders the non-zero categories in the fixed order "added, modified,
deleted, renamed", and prefixes "1 file " for a single file and
"<n> files (...)" otherwise. -/
theorem c6_changeSummary_format (l : List FileChange) (hne : l ≠ []) :
    generateChangeSummary l =
      (let na := l.countP (fun f => decide (f.change_type = ChangeType.ADDED))
       let nm := l.countP (fun f => decide (f.change_type = ChangeType.MODIFIED))
       let nd := l.countP (fun f => decide (f.change_type = ChangeType.DELETED))
       let nr := l.countP (fun f => decide (f.change_type = ChangeType.RENAMED))
       let parts :=
         (if na ≠ 0 then [toString na ++ " added"] else [])
           ++ (if nm ≠ 0 then [toString nm ++ " modified"] else [])
           ++ (if nd ≠ 0 then [toString nd ++ " deleted"] else [])
           ++ (if nr ≠ 0 then [toString nr ++ " renamed"] else [])
       if l.length = 1 then "1 file " ++ joinStrs ", " parts
       else toString l.length ++ " files (" ++ joinStrs ", " parts ++ ")") := by
  have hempty : ¬ l.isEmpty = true := by
    simpa using hne
  unfold generateChangeSummary
  rw [if_neg hempty]
  simp only [List.countP_eq_length_filter]

/-- Witness for C6: one added, one modified, one deleted file. -/
theorem c6_changeSummary_format_witness :
    cThreeKinds ≠ [] ∧
      generateChangeSummary cThreeKinds = "3 files (1 added, 1 modified, 1 deleted)" :=
  ⟨by decide, (c6_changeSummary_format cThreeKinds (by decide)).trans (by decide)⟩

/-- Claim C9: files whose kind is not Added/Modified/Deleted/Renamed count
toward the leading file count but toward no rendered category, so a change
set of such files renders an empty category list — in particular a single
Copied file yields exactly "1 file " (trailing space, empty list). -/
theorem c9_changeSummary_uncounted_kinds (l : List FileChange) (hne : l ≠ [])
    (hk : ∀ f ∈ l, f.change_type = ChangeType.COPIED ∨ f.change_type = ChangeType.UNMERGED ∨
        f.change_type = ChangeType.UNKNOWN ∨ f.change_type = ChangeType.BROKEN) :
    generateChangeSummary l =
      if l.length = 1 then "1 file " else toString l.length ++ " files ()" := by
  have hempty : ¬ l.isEmpty = true := by
    simpa using hne
  have hz : ∀ t : ChangeType,
      t = ChangeType.ADDED ∨ t = ChangeType.MODIFIED ∨ t = ChangeType.DELETED ∨
        t = ChangeType.RENAMED →
      l.filter (fun c => decide (c.change_type = t)) = [] := by
    intro t ht
    rw [List.filter_eq_nil_iff]
    intro f hf
    rcases hk f hf with h | h | h | h <;>
      rcases ht with rfl | rfl | rfl | rfl <;> simp [h]
  unfold generateChangeSummary
  rw [if_neg hempty]
  simp only [hz ChangeType.ADDED (Or.inl rfl), hz ChangeType.MODIFIED (Or.inr (Or.inl rfl)),
    hz ChangeType.DELETED (Or.inr (Or.inr (Or.inl rfl))),
    hz ChangeType.RENAMED (Or.inr (Or.inr (Or.inr rfl))), List.length_nil, ne_eq,
    eq_self_iff_true, not_true_eq_false, if_false, List.append_nil, List.nil_append]
  by_cases h1 : l.length = 1
  · rw [if_pos h1, if_pos h1]
    show "1 file " ++ "" = "1 file "
    exact String.append_empty _
  · rw [if_neg h1, if_neg h1]
    show toString l.length ++ " files (" ++ "" ++ ")" = toString l.length ++ " files ()"
    rw [String.append_empty, String.append_assoc]
    rfl

/-- Witness for C9: a single copied file gives exactly "1 file ". -/
theorem c9_changeSummary_uncounted_kinds_witness :
    cCopiedOnly ≠ [] ∧ generateChangeSummary cCopiedOnly = "1 file " :=
  ⟨by decide,
    (c9_changeSummary_uncounted_kinds cCopiedOnly (by decide) (by decide)).trans (by decide)⟩

/-- Claim C7: `is_likely_feature` holds exactly when additions exceed twice
the deletions, more than one file changed, and some file is Added; on the
2-file example with one Added file and totals 120/10 the feature flag is
true and the fix flag false. -/
theorem c7_likelyFeature_spec :
    (∀ d : DiffAnalysis,
        isLikelyFeature d = true ↔
          2 * d.total_deletions < d.total_additions ∧ 1 < d.files_changed.length ∧
            ∃ f ∈ d.files_changed, f.change_type = ChangeType.ADDED)
      ∧ isLikelyFeature cFeatureExample = true ∧ isLikelyFix cFeatureExample = false := by
  refine ⟨fun d => ?_, by decide, by decide⟩
  unfold isLikelyFeature
  simp [List.any_eq_true, fileCount, Nat.mul_comm, and_assoc]

/-- Counterexample to claim C4 as stated: a Renamed file appears in
`affected_files` but in none of `added_files`/`modified_files`/
`deleted_files` — not in "exactly one" of them. -/
theorem c4_partition_renamed_cex :
    enhanceFileChange cRenamedFile ∈ (enhanceDiffAnalysis cRenamedAnalysis).affected_files
      ∧ enhanceFileChange cRenamedFile ∉ (enhanceDiffAnalysis cRenamedAnalysis).added_files
      ∧ enhanceFileChange cRenamedFile ∉ (enhanceDiffAnalysis cRenamedAnalysis).modified_files
      ∧ enhanceFileChange cRenamedFile ∉ (enhanceDiffAnalysis cRenamedAnalysis).deleted_files := by
  decide

/-- Claim C4 as amended: an enhanced record is in `added_files`,
`modified_files` or `deleted_files` exactly when its rendered kind label is
the matching one of "added"/"modified"/"deleted" (so a record of any other
kind — renamed, copied, or the "changed" fallback — is in none of the
three, and a record with a matching label is in exactly that one, the
labels being mutually exclusive), and it is in `test_files` exactly when
its `is_test` flag is set. -/
theorem c4_partition_amended (d : DiffAnalysis) (e : EnhancedFileChange)
    (he : e ∈ (enhanceDiffAnalysis d).affected_files) :
    (e ∈ (enhanceDiffAnalysis d).added_files ↔ e.change_type = "added")
      ∧ (e ∈ (enhanceDiffAnalysis d).modified_files ↔ e.change_type = "modified")
      ∧ (e ∈ (enhanceDiffAnalysis d).deleted_files ↔ e.change_type = "deleted")
      ∧ (e ∈ (enhanceDiffAnalysis d).test_files ↔ e.is_test = true) := by
  simp only [enhanceDiffAnalysis] at he ⊢
  simp only [List.mem_filter, he, true_and, beq_iff_eq]

/-- Witness for the amended C4: an added test file lands in `added_files`
and in `test_files`. -/
theorem c4_partition_amended_witness :
    enhanceFileChange cAddedTestFile ∈ (enhanceDiffAnalysis cAddedTestAnalysis).added_files
      ∧ enhanceFileChange cAddedTestFile ∈ (enhanceDiffAnalysis cAddedTestAnalysis).test_files :=
  ⟨(c4_partition_amended cAddedTestAnalysis (enhanceFileChange cAddedTestFile)
      (by decide)).1.mpr (by decide),
   (c4_partition_amended cAddedTestAnalysis (enhanceFileChange cAddedTestFile)
      (by decide)).2.2.2.mpr (by decide)⟩

/-- Claim C10: a file whose kind is Unmerged, Unknown or Broken is rendered
with the label "changed", and its enhanced record is in `affected_files`
but in none of `added_files`/`modified_files`/`deleted_files`. -/
theorem c10_enhance_other_kinds (fc : FileChange) (d : DiffAnalysis)
    (hmem : fc ∈ d.files_changed)
    (hk : fc.change_type = ChangeType.UNMERGED ∨ fc.change_type = ChangeType.UNKNOWN ∨
        fc.change_type = ChangeType.BROKEN) :
    (enhanceFileChange fc).change_type = "changed"
      ∧ enhanceFileChange fc ∈ (enhanceDiffAnalysis d).affected_files
      ∧ enhanceFileChange fc ∉ (enhanceDiffAnalysis d).added_files
      ∧ enhanceFileChange fc ∉ (enhanceDiffAnalysis d).modified_files
      ∧ enhanceFileChange fc ∉ (enhanceDiffAnalysis d).deleted_files := by
  have hlabel : (enhanceFileChange fc).change_type = "changed" := by
    rcases hk with h | h | h <;> simp [enhanceFileChange, changeTypeLabel, h]
  refine ⟨hlabel, ?_, ?_, ?_, ?_⟩
  · simp only [enhanceDiffAnalysis]
    exact List.mem_map_of_mem _ hmem
  all_goals
    simp only [enhanceDiffAnalysis]
    intro hcontra
    have hlab2 := (List.mem_filter.mp hcontra).2
    rw [beq_iff_eq, hlabel] at hlab2
    exact absurd hlab2 (by decide)

/-- Witness for C10: a single unmerged file. -/
theorem c10_enhance_other_kinds_witness :
    (enhanceFileChange cUnmergedFile).change_type = "changed"
      ∧ enhanceFileChange cUnmergedFile ∈ (enhanceDiffAnalysis cUnmergedAnalysis).affected_files
      ∧ enhanceFileChange cUnmergedFile ∉ (enhanceDiffAnalysis cUnmergedAnalysis).added_files :=
  ⟨(c10_enhance_other_kinds cUnmergedFile cUnmergedAnalysis (by decide) (by decide)).1,
   (c10_enhance_other_kinds cUnmergedFile cUnmergedAnalysis (by decide) (by decide)).2.1,
   (c10_enhance_other_kinds cUnmergedFile cUnmergedAnalysis (by decide) (by decide)).2.2.1⟩

/-! ### Helper lemmas: issue-extraction scanners produce non-empty digit
runs, and the keyword scanner's fuel never runs out -/

theorem stripPrefixCI_length {kw s r : List Char} (h : stripPrefixCI kw s = some r) :
    r.length ≤ s.length := by
  induction kw generalizing s with
  | nil =>
    simp only [stripPrefixCI] at h
    obtain rfl := Option.some.inj h
    exact le_refl _
  | cons k ks ih =>
    cases s with
    | nil => exact Option.noConfusion h
    | cons c cs =>
      unfold stripPrefixCI at h
      split at h
      · exact le_trans (ih h) (by simp)
      · exact Option.noConfusion h

theorem afterOptS_length (r1 : List Char) : (afterOptS r1).length ≤ r1.length := by
  cases r1 with
  | nil => exact le_refl _
  | cons c t => by_cases h : c.toLower = 's' <;> simp [afterOptS, h]

theorem matchHashDigits_forms {r2 ds after : List Char}
    (h : matchHashDigits r2 = some (ds, after)) :
    ds ≠ [] ∧ (∀ c ∈ ds, c.isDigit = true) ∧ after.length < r2.length := by
  unfold matchHashDigits at h
  split at h
  · exact Option.noConfusion h
  · split at h
    · rename_i t2 heq
      split at h
      · exact Option.noConfusion h
      · rename_i hds
        have hinj := Option.some.inj h
        rw [Prod.mk.injEq] at hinj
        obtain ⟨rfl, rfl⟩ := hinj
        refine ⟨?_, fun c hc => List.mem_takeWhile_imp hc, ?_⟩
        · intro hnil
          exact hds (by simp [hnil])
        · have h1 := (List.dropWhile_sublist isPySpace (l := r2)).length_le
          rw [heq] at h1
          have h2 := (List.dropWhile_sublist Char.isDigit (l := t2)).length_le
          simp only [List.length_cons] at h1
          omega
    · exact Option.noConfusion h

theorem matchKwAt_forms {kw s ds after : List Char} (h : matchKwAt kw s = some (ds, after)) :
    ds ≠ [] ∧ (∀ c ∈ ds, c.isDigit = true) ∧ after.length < s.length := by
  unfold matchKwAt at h
  cases hsp : stripPrefixCI kw s with
  | none => rw [hsp] at h; exact Option.noConfusion h
  | some r1 =>
    rw [hsp] at h
    have hf := matchHashDigits_forms h
    exact ⟨hf.1, hf.2.1,
      lt_of_lt_of_le hf.2.2 (le_trans (afterOptS_length r1) (stripPrefixCI_length hsp))⟩

theorem goHash_forms : ∀ (l : List Char) (hacc? : Option (List Char)),
    (∀ acc, hacc? = some acc → ∀ c ∈ acc, c.isDigit = true) →
    ∀ ds ∈ goHash hacc? l, ds ≠ [] ∧ ∀ c ∈ ds, c.isDigit = true := by
  intro l
  induction l with
  | nil =>
    intro acc? hacc ds hds
    cases acc? with
    | none => simp [goHash] at hds
    | some acc =>
      unfold goHash at hds
      split at hds
      · simp at hds
      · rename_i hne
        obtain rfl := List.mem_singleton.mp hds
        refine ⟨?_, fun c hc => hacc acc rfl c (List.mem_reverse.mp hc)⟩
        intro hnil
        rw [List.reverse_eq_nil_iff] at hnil
        exact hne (by simp [hnil])
  | cons c rest ih =>
    intro acc? hacc ds hds
    have hreset : ∀ acc, (if c = '#' then some ([] : List Char) else none) = some acc →
        ∀ x ∈ acc, x.isDigit = true := by
      intro acc hacc2 x hx
      by_cases hc : c = '#'
      · rw [if_pos hc] at hacc2
        obtain rfl := Option.some.inj hacc2
        simp at hx
      · rw [if_neg hc] at hacc2
        exact Option.noConfusion hacc2
    cases acc? with
    | none =>
      unfold goHash at hds
      exact ih _ hreset ds hds
    | some acc =>
      unfold goHash at hds
      split at hds
      · rename_i hd
        refine ih _ ?_ ds hds
        intro acc2 hacc2 x hx
        obtain rfl := Option.some.inj hacc2
        rcases List.mem_cons.mp hx with rfl | hx
        · exact hd
        · exact hacc acc rfl x hx
      · split at hds
        · exact ih _ hreset ds hds
        · rename_i hnd hne
          rcases List.mem_cons.mp hds with rfl | hds
          · refine ⟨?_, fun x hx => hacc acc rfl x (List.mem_reverse.mp hx)⟩
            intro hnil
            rw [List.reverse_eq_nil_iff] at hnil
            exact hne (by simp [hnil])
          · exact ih _ hreset ds hds

theorem findallKwAux_forms (kw : List Char) : ∀ (n : Nat) (s : List Char),
    ∀ ds ∈ findallKwAux kw n s, ds ≠ [] ∧ ∀ c ∈ ds, c.isDigit = true := by
  intro n
  induction n with
  | zero =>
    intro s ds hds
    simp [findallKwAux] at hds
  | succ n ih =>
    intro s ds hds
    cases s with
    | nil => simp [findallKwAux] at hds
    | cons c rest =>
      unfold findallKwAux at hds
      cases hm : matchKwAt kw (c :: rest) with
      | none =>
        rw [hm] at hds
        exact ih rest ds hds
      | some pair =>
        obtain ⟨ds0, after⟩ := pair
        rw [hm] at hds
        rcases List.mem_cons.mp hds with rfl | hds
        · have hf := matchKwAt_forms hm
          exact ⟨hf.1, hf.2.1⟩
        · exact ih after ds hds

theorem findallKwAux_fuel (kw : List Char) : ∀ (n m : Nat) (s : List Char),
    s.length ≤ n → s.length ≤ m → findallKwAux kw n s = findallKwAux kw m s := by
  intro n
  induction n with
  | zero =>
    intro m s hn _
    obtain rfl := List.length_eq_zero.mp (Nat.le_zero.mp hn)
    cases m <;> rfl
  | succ n ih =>
    intro m s hn hm
    cases s with
    | nil => cases m <;> rfl
    | cons c rest =>
      obtain ⟨m', rfl⟩ : ∃ m', m = m' + 1 := by
        cases m with
        | zero => exact absurd hm (by simp)
        | succ m' => exact ⟨m', rfl⟩
      simp only [List.length_cons, Nat.add_le_add_iff_right] at hn hm
      unfold findallKwAux
      cases hmc : matchKwAt kw (c :: rest) with
      | none =>
        show findallKwAux kw n rest = findallKwAux kw m' rest
        exact ih m' rest hn hm
      | some pair =>
        obtain ⟨ds0, after⟩ := pair
        have hlen := (matchKwAt_forms hmc).2.2
        simp only [List.length_cons] at hlen
        show ds0 :: findallKwAux kw n after = ds0 :: findallKwAux kw m' after
        rw [ih m' after (by omega) (by omega)]

/-- Claim C5: issue extraction over the raw summary text; on the spec's
example the result is exactly ["#42", "#7"], and in general the returned
list is lexicographically sorted (Python string order), duplicate-free, and
every element is "#" followed by a non-empty digit run. -/
theorem c5_extractRelatedIssues_spec :
    extractRelatedIssues "Fixes #42 and relates to #7, closes #42" = ["#42", "#7"]
      ∧ ∀ t : String,
          (extractRelatedIssues t).Pairwise (fun a b => strLeB a b = true)
            ∧ (extractRelatedIssues t).Nodup
            ∧ ∀ s ∈ extractRelatedIssues t, ∃ ds : List Char,
                ds ≠ [] ∧ (∀ c ∈ ds, c.isDigit = true) ∧ s = String.mk ('#' :: ds) := by
  refine ⟨by decide, fun t => ?_⟩
  by_cases ht : t = ""
  · unfold extractRelatedIssues
    rw [if_pos ht]
    exact ⟨List.Pairwise.nil, List.nodup_nil, by simp⟩
  · unfold extractRelatedIssues
    rw [if_neg ht]
    refine ⟨sortStrs_pairwise _, sortStrs_nodup (List.nodup_dedup _), ?_⟩
    intro s hs
    rw [mem_sortStrs, List.mem_dedup, List.mem_map] at hs
    obtain ⟨ds, hmem, rfl⟩ := hs
    have hforms : ds ≠ [] ∧ ∀ c ∈ ds, c.isDigit = true := by
      unfold allIssueMatches at hmem
      rcases List.mem_append.mp hmem with h1 | h1
      · rcases List.mem_append.mp h1 with h2 | h2
        · rcases List.mem_append.mp h2 with h3 | h3
          · exact goHash_forms _ none (fun acc h => Option.noConfusion h) ds h3
          · exact findallKwAux_forms _ _ _ ds h3
        · exact findallKwAux_forms _ _ _ ds h2
      · exact findallKwAux_forms _ _ _ ds h1
    exact ⟨ds, hforms.1, hforms.2, rfl⟩

/-- Witness for C5's universal part: on "see #9" the extracted "#9" has the
"#<digits>" shape. -/
theorem c5_extractRelatedIssues_spec_witness :
    ("#9" : String) ∈ extractRelatedIssues "see #9"
      ∧ ∃ ds : List Char, ds ≠ [] ∧ (∀ c ∈ ds, c.isDigit = true) ∧ "#9" = String.mk ('#' :: ds) :=
  ⟨by decide, (c5_extractRelatedIssues_spec.2 "see #9").2.2 "#9" (by decide)⟩

/-! ### Helper lemmas: characterising `get_change_scope`'s branches by the
raw file list -/

theorem find?_congr {α : Type} {l : List α} {p q : α → Bool}
    (h : ∀ x ∈ l, (p x = true ↔ q x = true)) : l.find? p = l.find? q := by
  induction l with
  | nil => rfl
  | cons a t ih =>
    have ha := h a (List.mem_cons_self a t)
    cases hp : p a with
    | true =>
      rw [List.find?_cons_of_pos _ hp, List.find?_cons_of_pos _ (ha.mp hp)]
    | false =>
      have hq : q a = false := by
        cases hqa : q a with
        | true => rw [ha.mpr hqa] at hp; exact Bool.noConfusion hp
        | false => rfl
      rw [List.find?_cons_of_neg _ (by simp [hp]), List.find?_cons_of_neg _ (by simp [hq])]
      exact ih (fun x hx => h x (List.mem_cons_of_mem a hx))

theorem mem_affectedDirs {d : DiffAnalysis} {x : String} :
    x ∈ affectedDirectories d ↔
      x ≠ "" ∧ ∃ f ∈ d.files_changed, dirname f.path = x := by
  unfold affectedDirectories
  rw [mem_sortStrs, List.mem_dedup, List.mem_filter, List.mem_map]
  rw [bne_iff_ne]
  exact and_comm

theorem affectedDirs_singleton (d : DiffAnalysis) (p : String) :
    affectedDirectories d = [p] ↔
      (p ≠ "" ∧ (∀ f ∈ d.files_changed, dirname f.path = p ∨ dirname f.path = "")
        ∧ ∃ f ∈ d.files_changed, dirname f.path = p) := by
  unfold affectedDirectories
  rw [sortStrs_eq_singleton_iff, dedup_eq_singleton_iff]
  constructor
  · rintro ⟨hmem, hall⟩
    rw [List.mem_filter, List.mem_map] at hmem
    obtain ⟨⟨f, hf, hdf⟩, hne⟩ := hmem
    rw [bne_iff_ne] at hne
    refine ⟨hne, ?_, ⟨f, hf, hdf⟩⟩
    intro g hg
    by_cases hgd : dirname g.path = ""
    · exact Or.inr hgd
    · left
      apply hall
      rw [List.mem_filter, List.mem_map]
      exact ⟨⟨g, hg, rfl⟩, by rwa [bne_iff_ne]⟩
  · rintro ⟨hne, hall, f, hf, hdf⟩
    constructor
    · rw [List.mem_filter, List.mem_map]
      exact ⟨⟨f, hf, hdf⟩, by rwa [bne_iff_ne]⟩
    · intro b hb
      rw [List.mem_filter, List.mem_map] at hb
      obtain ⟨⟨g, hg, hdg⟩, hbne⟩ := hb
      rw [bne_iff_ne] at hbne
      rcases hall g hg with h | h
      · rw [← hdg]; exact h
      · rw [hdg] at h; exact absurd h hbne

theorem fileExts_singleton (d : DiffAnalysis) (e : String) :
    fileExtensions d = [e] ↔
      ((∀ f ∈ d.files_changed, hasDot f.path = true → extLow f.path = e)
        ∧ ∃ f ∈ d.files_changed, hasDot f.path = true ∧ extLow f.path = e) := by
  unfold fileExtensions
  rw [sortStrs_eq_singleton_iff, dedup_eq_singleton_iff]
  constructor
  · rintro ⟨hmem, hall⟩
    rw [List.mem_map] at hmem
    obtain ⟨f, hf, hdf⟩ := hmem
    rw [List.mem_filter] at hf
    refine ⟨?_, ⟨f, hf.1, hf.2, hdf⟩⟩
    intro g hg hgd
    apply hall
    rw [List.mem_map]
    exact ⟨g, List.mem_filter.mpr ⟨hg, hgd⟩, rfl⟩
  · rintro ⟨hall, f, hf, hfd, hfe⟩
    constructor
    · rw [List.mem_map]
      exact ⟨f, List.mem_filter.mpr ⟨hf, hfd⟩, hfe⟩
    · intro b hb
      rw [List.mem_map] at hb
      obtain ⟨g, hg, hge⟩ := hb
      rw [List.mem_filter] at hg
      rw [← hge]
      exact hall g hg.1 hg.2

theorem affectedDirs_any_iff (d : DiffAnalysis) (p : String → Bool) :
    (affectedDirectories d).any p = true ↔
      ∃ f ∈ d.files_changed, dirname f.path ≠ "" ∧ p (dirname f.path) = true := by
  rw [List.any_eq_true]
  constructor
  · rintro ⟨x, hx, hpx⟩
    obtain ⟨hne, f, hf, hdf⟩ := mem_affectedDirs.mp hx
    exact ⟨f, hf, by rw [hdf]; exact hne, by rw [hdf]; exact hpx⟩
  · rintro ⟨f, hf, hne, hp⟩
    exact ⟨dirname f.path, mem_affectedDirs.mpr ⟨hne, f, hf, rfl⟩, hp⟩

theorem scopeFallback_eq (d : DiffAnalysis) :
    scopeFallback d =
      match commonScopes.find? (fun sc => d.files_changed.any (fun f =>
          (dirname f.path != "") && isSubstrS sc (dirname f.path))) with
      | some sc => sc
      | none => if 1 < d.files_changed.length then "core" else "" := by
  unfold scopeFallback
  have hcg := find?_congr (l := commonScopes)
    (p := fun sc => (affectedDirectories d).any (fun dir => isSubstrS sc dir))
    (q := fun sc => d.files_changed.any (fun f =>
      (dirname f.path != "") && isSubstrS sc (dirname f.path)))
    (by
      intro sc _
      rw [affectedDirs_any_iff, List.any_eq_true]
      constructor
      · rintro ⟨f, hf, hne, hp⟩
        refine ⟨f, hf, ?_⟩
        rw [Bool.and_eq_true, bne_iff_ne]
        exact ⟨hne, hp⟩
      · rintro ⟨f, hf, hfp⟩
        rw [Bool.and_eq_true, bne_iff_ne] at hfp
        exact ⟨f, hf, hfp.1, hfp.2⟩)
  rw [hcg]
  exact rfl

/-- Counterexample to claim C8 as stated: in `cRootAndSrc` the two files do
not share a parent directory (one is at the repository root), yet
`get_change_scope` returns "src" — not the shared primary extension "py"
that the claim's cascade prescribes for this input (root-level files are
simply absent from `affected_directories`). -/
theorem c8_changeScope_claim_cex :
    getChangeScope cRootAndSrc = "src"
      ∧ dirname "root.py" = "" ∧ dirname "src/x.py" = "src"
      ∧ (∀ f ∈ cRootAndSrc.files_changed, hasDot f.path = true ∧ extLow f.path = "py")
      ∧ "py" ∈ primaryExts
      ∧ ("src" : String) ≠ "py" := by
  decide

/-- Claim C8 as amended: `get_change_scope` returns (1) the unique
non-root parent directory `p` when every changed file's parent is `p` or
the root and some file is under `p`; else (2) the shared lowercased
extension `e` of the files that have one (provided some file has one and
`e` is in the primary-language list); else (3) the first of
src/lib/tests/docs/config that is a substring of some changed file's
non-root parent directory, and otherwise "core" when more than one file
changed and "" when at most one did. -/
theorem c8_changeScope_amended (d : DiffAnalysis) :
    (∀ p : String, p ≠ "" →
        (∀ f ∈ d.files_changed, dirname f.path = p ∨ dirname f.path = "") →
        (∃ f ∈ d.files_changed, dirname f.path = p) →
        getChangeScope d = p)
      ∧ ((∀ p : String, ¬(p ≠ ""
            ∧ (∀ f ∈ d.files_changed, dirname f.path = p ∨ dirname f.path = "")
            ∧ ∃ f ∈ d.files_changed, dirname f.path = p)) →
        (∀ e : String, e ∈ primaryExts →
            (∀ f ∈ d.files_changed, hasDot f.path = true → extLow f.path = e) →
            (∃ f ∈ d.files_changed, hasDot f.path = true ∧ extLow f.path = e) →
            getChangeScope d = e)
          ∧ ((∀ e ∈ primaryExts,
                ¬((∀ f ∈ d.files_changed, hasDot f.path = true → extLow f.path = e)
                  ∧ ∃ f ∈ d.files_changed, hasDot f.path = true ∧ extLow f.path = e)) →
            getChangeScope d =
              match commonScopes.find? (fun sc =>
                  d.files_changed.any (fun f =>
                    (dirname f.path != "") && isSubstrS sc (dirname f.path))) with
              | some sc => sc
              | none => if 1 < d.files_changed.length then "core" else "")) := by
  constructor
  · intro p hp hall hex
    have hd : affectedDirectories d = [p] := (affectedDirs_singleton d p).mpr ⟨hp, hall, hex⟩
    simp [getChangeScope, hd]
  · intro hA
    have hnd : ∀ q, affectedDirectories d ≠ [q] := by
      intro q hq
      exact hA q ((affectedDirs_singleton d q).mp hq)
    constructor
    · intro e he hall hex
      have hexts : fileExtensions d = [e] := (fileExts_singleton d e).mpr ⟨hall, hex⟩
      cases hdl : affectedDirectories d with
      | nil => simp [getChangeScope, hdl, hexts, he]
      | cons a t =>
        cases t with
        | nil => exact absurd hdl (hnd a)
        | cons b t2 => simp [getChangeScope, hdl, hexts, he]
    · intro hB
      have hfb : getChangeScope d = scopeFallback d := by
        cases hdl : affectedDirectories d with
        | nil =>
          cases hel : fileExtensions d with
          | nil => simp [getChangeScope, hdl, hel]
          | cons x xs =>
            cases xs with
            | nil =>
              by_cases hprim : x ∈ primaryExts
              · exact absurd ((fileExts_singleton d x).mp hel) (hB x hprim)
              · simp [getChangeScope, hdl, hel, hprim]
            | cons y ys => simp [getChangeScope, hdl, hel]
        | cons a t =>
          cases t with
          | nil => exact absurd hdl (hnd a)
          | cons b t2 =>
            cases hel : fileExtensions d with
            | nil => simp [getChangeScope, hdl, hel]
            | cons x xs =>
              cases xs with
              | nil =>
                by_cases hprim : x ∈ primaryExts
                · exact absurd ((fileExts_singleton d x).mp hel) (hB x hprim)
                · simp [getChangeScope, hdl, hel, hprim]
              | cons y ys => simp [getChangeScope, hdl, hel]
      rw [hfb, scopeFallback_eq]

/-- Witness for the amended C8's first branch: all files under
`src/payments/` give scope "src/payments" (the spec's own example). -/
theorem c8_changeScope_amended_witness :
    getChangeScope cPayments = "src/payments" :=
  (c8_changeScope_amended cPayments).1 "src/payments" (by decide) (by decide) (by decide)
